import Mathlib

/-!
Verification of the PWD Tools calculators (Streamlit_app2.py and
streamlit_app.py) against their natural-language specification.

Monetary amounts and rates are embedded as exact rationals; the
Python flows under scrutiny are pure arithmetic on the submitted
scalars, followed by a SQLite insert and a rendering step.
-/

namespace PWD

/-! ## Professional Bill Note Sheet (Streamlit_app2.py, show_professional_bill_sheet)

Embeds the arithmetic at lines 618-626: GST on the current claim, a
GST-inclusive gross, TDS computed against that gross, retention and
labour cess against the plain claim, then totals.
-/

structure BillInput where
  currentClaim : ℚ
  gstRate : ℚ
  tdsRate : ℚ
  retentionRate : ℚ
  labourCessRate : ℚ
  otherDeductions : ℚ
  deriving Repr, DecidableEq

structure BillCalc where
  gstAmount : ℚ
  grossWithGst : ℚ
  tdsAmount : ℚ
  retentionAmount : ℚ
  labourCessAmount : ℚ
  totalDeductions : ℚ
  netPayment : ℚ
  deriving Repr, DecidableEq

def computeProfessionalBill (i : BillInput) : BillCalc :=
  let gst_amount := i.currentClaim * (i.gstRate / 100)
  let gross_with_gst := i.currentClaim + gst_amount
  let tds_amount := gross_with_gst * (i.tdsRate / 100)
  let retention_amount := i.currentClaim * (i.retentionRate / 100)
  let labour_cess_amount := i.currentClaim * (i.labourCessRate / 100)
  let total_deductions := tds_amount + retention_amount + labour_cess_amount + i.otherDeductions
  let net_payment := gross_with_gst - total_deductions
  { gstAmount := gst_amount
    grossWithGst := gross_with_gst
    tdsAmount := tds_amount
    retentionAmount := retention_amount
    labourCessAmount := labour_cess_amount
    totalDeductions := total_deductions
    netPayment := net_payment }

/-! ## Advanced Deductions Table (Streamlit_app2.py, show_advanced_deductions)

Embeds lines 745-756: every percentage deduction is taken against the
plain base amount, fixed amounts are added as given, and the net is the
base minus the total, with no clamping.
-/

structure DeductionsInput where
  baseAmount : ℚ
  tdsRate : ℚ
  gstRate : ℚ
  labourCessRate : ℚ
  performanceRate : ℚ
  retentionRate : ℚ
  securityAmount : ℚ
  mobilizationAmount : ℚ
  materialAmount : ℚ
  penaltyAmount : ℚ
  otherAmount : ℚ
  deriving Repr, DecidableEq

structure DeductionsResult where
  tdsCalc : ℚ
  gstCalc : ℚ
  labourCessCalc : ℚ
  performanceCalc : ℚ
  retentionCalc : ℚ
  totalDeductions : ℚ
  netAmount : ℚ
  deriving Repr, DecidableEq

def computeAdvancedDeductions (i : DeductionsInput) : DeductionsResult :=
  let tds_calc := i.baseAmount * (i.tdsRate / 100)
  let gst_calc := i.baseAmount * (i.gstRate / 100)
  let labour_cess_calc := i.baseAmount * (i.labourCessRate / 100)
  let performance_calc := i.baseAmount * (i.performanceRate / 100)
  let retention_calc := i.baseAmount * (i.retentionRate / 100)
  let total_deductions := tds_calc + gst_calc + labour_cess_calc + performance_calc +
    retention_calc + i.securityAmount + i.mobilizationAmount +
    i.materialAmount + i.penaltyAmount + i.otherAmount
  let net_amount := i.baseAmount - total_deductions
  { tdsCalc := tds_calc
    gstCalc := gst_calc
    labourCessCalc := labour_cess_calc
    performanceCalc := performance_calc
    retentionCalc := retention_calc
    totalDeductions := total_deductions
    netAmount := net_amount }

/-! ## Advanced Delay Calculator (Streamlit_app2.py, show_advanced_delay_calculator)

Dates are embedded as integer day numbers, so that the Python
`(actual_date - original_date).days` is the integer difference.
Lines 470-525: zero penalty for early or on-time completion, a
time-proportional penalty otherwise, and a three-way impact rating.
-/

inductive ImpactLevel where
  | high
  | medium
  | low
  deriving Repr, DecidableEq

structure DelayResult where
  delayDays : ℤ
  penaltyAmount : ℚ
  delayPercentage : ℚ
  impactRating : ImpactLevel
  deriving Repr, DecidableEq

def computeDelayAnalysis (originalDate actualDate : ℤ) (projectValue penaltyRate : ℚ) :
    DelayResult :=
  let delay_days : ℤ := actualDate - originalDate
  let penalty_amount : ℚ :=
    if delay_days < 0 then 0
    else if delay_days = 0 then 0
    else projectValue * (penaltyRate / 100) * (delay_days : ℚ)
  let delay_percentage : ℚ :=
    if delay_days > 0 then ((delay_days : ℚ) / 365) * 100 else 0
  let impact_rating : ImpactLevel :=
    if delay_days > 90 then .high else if delay_days > 30 then .medium else .low
  { delayDays := delay_days
    penaltyAmount := penalty_amount
    delayPercentage := delay_percentage
    impactRating := impact_rating }

end PWD

/-- C1: the professional-bill deduction pipeline at base 100000, TDS 2%,
GST 18%, retention 5%, labour cess 1% and no other deductions computes
GST 18000, gross with GST 118000, TDS 2360 (against the GST-inclusive
gross), retention 5000, labour cess 1000, total deductions 8360 and net
payment 109640. -/
theorem professional_bill_concrete_scenario :
    PWD.computeProfessionalBill
      { currentClaim := 100000, gstRate := 18, tdsRate := 2, retentionRate := 5,
        labourCessRate := 1, otherDeductions := 0 } =
      { gstAmount := 18000, grossWithGst := 118000, tdsAmount := 2360,
        retentionAmount := 5000, labourCessAmount := 1000,
        totalDeductions := 8360, netPayment := 109640 } := by
  simp only [PWD.computeProfessionalBill, PWD.BillCalc.mk.injEq]
  norm_num

/-- C4: the delay analyzer returns a zero penalty whenever the delay
(actual minus planned, in days) is zero or negative, and the
time-proportional penalty projectValue * (rate/100) * delayDays
whenever the delay is positive. -/
theorem delay_penalty_formula (originalDate actualDate : ℤ) (projectValue penaltyRate : ℚ) :
    (actualDate - originalDate ≤ 0 →
      (PWD.computeDelayAnalysis originalDate actualDate projectValue penaltyRate).penaltyAmount
        = 0) ∧
    (0 < actualDate - originalDate →
      (PWD.computeDelayAnalysis originalDate actualDate projectValue penaltyRate).penaltyAmount
        = projectValue * (penaltyRate / 100) * ((actualDate - originalDate : ℤ) : ℚ)) := by
  constructor <;> intro h <;>
    simp only [PWD.computeDelayAnalysis] <;>
    split_ifs with h1 h2 <;> first | rfl | omega

/-- Witness for C4 at a five-day-early completion and a ten-day-late
completion with project value 1000 and rate 5 percent per day. -/
theorem delay_penalty_formula_witness :
    (PWD.computeDelayAnalysis 0 (-5) 1000 5).penaltyAmount = 0 ∧
    (PWD.computeDelayAnalysis 0 10 1000 5).penaltyAmount
      = 1000 * (5 / 100) * (((10 : ℤ) - 0 : ℤ) : ℚ) := by
  exact ⟨(delay_penalty_formula 0 (-5) 1000 5).1 (by norm_num),
    (delay_penalty_formula 0 10 1000 5).2 (by norm_num)⟩

/-- C9: the delay analyzer rates the impact High exactly when the delay
exceeds 90 days, Medium exactly when it is over 30 and at most 90 days,
and Low otherwise, including zero and negative delays. -/
theorem delay_impact_classification (originalDate actualDate : ℤ)
    (projectValue penaltyRate : ℚ) :
    ((PWD.computeDelayAnalysis originalDate actualDate projectValue penaltyRate).impactRating
        = PWD.ImpactLevel.high ↔ 90 < actualDate - originalDate) ∧
    ((PWD.computeDelayAnalysis originalDate actualDate projectValue penaltyRate).impactRating
        = PWD.ImpactLevel.medium ↔
        30 < actualDate - originalDate ∧ actualDate - originalDate ≤ 90) ∧
    ((PWD.computeDelayAnalysis originalDate actualDate projectValue penaltyRate).impactRating
        = PWD.ImpactLevel.low ↔ actualDate - originalDate ≤ 30) := by
  simp only [PWD.computeDelayAnalysis]
  split_ifs with h1 h2 <;> refine ⟨?_, ?_, ?_⟩ <;> simp <;> omega

/-- Witness for C9: a 100-day delay is rated High. -/
theorem delay_impact_classification_witness :
    (PWD.computeDelayAnalysis 0 100 1000000 (5 / 100)).impactRating
      = PWD.ImpactLevel.high := by
  exact ((delay_impact_classification 0 100 1000000 (5 / 100)).1).mpr (by norm_num)

/-- C8: both deduction flows return the net as gross minus total
deductions with no clamping; in the deductions-table flow the gross is
the plain base. On a concrete input whose deductions exceed the gross
the returned net is negative rather than clamped to zero. -/
theorem net_amount_no_clamping :
    (∀ i : PWD.DeductionsInput,
      (PWD.computeAdvancedDeductions i).netAmount =
        i.baseAmount - (PWD.computeAdvancedDeductions i).totalDeductions) ∧
    (∀ b : PWD.BillInput,
      (PWD.computeProfessionalBill b).netPayment =
        (PWD.computeProfessionalBill b).grossWithGst -
          (PWD.computeProfessionalBill b).totalDeductions) ∧
    (PWD.computeAdvancedDeductions
      { baseAmount := 1000, tdsRate := 0, gstRate := 0, labourCessRate := 0,
        performanceRate := 0, retentionRate := 0, securityAmount := 0,
        mobilizationAmount := 0, materialAmount := 0, penaltyAmount := 2500,
        otherAmount := 0 }).netAmount = -1500 ∧
    (PWD.computeAdvancedDeductions
      { baseAmount := 1000, tdsRate := 0, gstRate := 0, labourCessRate := 0,
        performanceRate := 0, retentionRate := 0, securityAmount := 0,
        mobilizationAmount := 0, materialAmount := 0, penaltyAmount := 2500,
        otherAmount := 0 }).netAmount < 0 := by
  refine ⟨fun i => rfl, fun b => rfl, ?_, ?_⟩ <;>
    · simp only [PWD.computeAdvancedDeductions]
      norm_num

/-- C6: the professional-bill flow computes TDS against the
GST-inclusive gross while the deductions-table flow computes it against
the plain base; with the same base 100000 and the same TDS 2% and GST
18% rates the two flows produce different TDS amounts (2360 vs 2000)
and different net amounts (109640 vs 74000). -/
theorem tds_base_divergence :
    (∀ b : PWD.BillInput,
      (PWD.computeProfessionalBill b).tdsAmount =
        (PWD.computeProfessionalBill b).grossWithGst * (b.tdsRate / 100) ∧
      (PWD.computeProfessionalBill b).grossWithGst =
        b.currentClaim + b.currentClaim * (b.gstRate / 100)) ∧
    (∀ i : PWD.DeductionsInput,
      (PWD.computeAdvancedDeductions i).tdsCalc = i.baseAmount * (i.tdsRate / 100)) ∧
    ((PWD.computeProfessionalBill
        { currentClaim := 100000, gstRate := 18, tdsRate := 2, retentionRate := 5,
          labourCessRate := 1, otherDeductions := 0 }).tdsAmount ≠
      (PWD.computeAdvancedDeductions
        { baseAmount := 100000, tdsRate := 2, gstRate := 18, labourCessRate := 1,
          performanceRate := 0, retentionRate := 5, securityAmount := 0,
          mobilizationAmount := 0, materialAmount := 0, penaltyAmount := 0,
          otherAmount := 0 }).tdsCalc) ∧
    ((PWD.computeProfessionalBill
        { currentClaim := 100000, gstRate := 18, tdsRate := 2, retentionRate := 5,
          labourCessRate := 1, otherDeductions := 0 }).netPayment ≠
      (PWD.computeAdvancedDeductions
        { baseAmount := 100000, tdsRate := 2, gstRate := 18, labourCessRate := 1,
          performanceRate := 0, retentionRate := 5, securityAmount := 0,
          mobilizationAmount := 0, materialAmount := 0, penaltyAmount := 0,
          otherAmount := 0 }).netAmount) := by
  refine ⟨fun b => ⟨rfl, rfl⟩, fun i => rfl, ?_, ?_⟩ <;>
    · simp only [PWD.computeProfessionalBill, PWD.computeAdvancedDeductions]
      norm_num

namespace PWD

/-! ## Currency formatter (Streamlit_app2.py, indian_number_to_words, lines 136-153)

The Python function takes the submitted amount - an IEEE-754 binary64
double - truncates it to an integer rupee count with `int(amount)`,
truncates the scaled remainder to a paise count with
`int((amount - rupees) * 100)`, renders both through the num2words
library, and on any conversion failure falls back to the plain numeric
rendering inside a bare `except:` clause.

Every double is an exact rational, so double values are carried as the
rationals they denote, and each double operation is the exact rational
operation followed by one binary64 rounding (round to nearest, ties to
even). The monetary values involved sit far inside the normal range,
where this is the complete IEEE semantics.
-/

/-- The Python `int()` conversion applied to a double value: the double
is the exact rational it denotes, and `int()` truncates it toward zero
with no further rounding, embedded with natural-number division on
numerator and denominator. -/
def pyInt (q : ℚ) : ℤ :=
  if 0 ≤ q.num then ((q.num.toNat / q.den : ℕ) : ℤ)
  else -(((-q.num).toNat / q.den : ℕ) : ℤ)

/-- Round to the nearest integer, ties to the even neighbour - the tie
behaviour of IEEE round-to-nearest-even at integer granularity. -/
def roundHalfEven (q : ℚ) : ℤ :=
  if q - (⌊q⌋ : ℚ) < 1 / 2 then ⌊q⌋
  else if (1 : ℚ) / 2 < q - (⌊q⌋ : ℚ) then ⌊q⌋ + 1
  else if ⌊q⌋ % 2 = 0 then ⌊q⌋ else ⌊q⌋ + 1

/-- The integer binary logarithm of a positive rational: the unique e
with 2 ^ e ≤ q < 2 ^ (e + 1), computed from the bit lengths of the
numerator and the denominator with a one-step correction. -/
def intLog2 (q : ℚ) : ℤ :=
  if 2 ^ ((Nat.log 2 q.num.toNat : ℤ) - (Nat.log 2 q.den : ℤ)) ≤ q
  then (Nat.log 2 q.num.toNat : ℤ) - (Nat.log 2 q.den : ℤ)
  else (Nat.log 2 q.num.toNat : ℤ) - (Nat.log 2 q.den : ℤ) - 1

/-- IEEE-754 binary64 rounding of an exact rational value to the
nearest representable double, ties to even: the value is scaled to its
binade so that the 53-bit significand becomes an integer, rounded half
to even, and scaled back. (Overflow and subnormals are outside the
program's monetary range and not modelled.) -/
def roundDouble (q : ℚ) : ℚ :=
  if q = 0 then 0
  else (roundHalfEven (q / 2 ^ (intLog2 |q| - 52)) : ℚ) * 2 ^ (intLog2 |q| - 52)

/-- A double subtraction: the exact difference, then one binary64
rounding. -/
def dSub (a b : ℚ) : ℚ := roundDouble (a - b)

/-- A double multiplication: the exact product, then one binary64
rounding. -/
def dMul (a b : ℚ) : ℚ := roundDouble (a * b)

/-- Line 139: `rupees = int(amount)`. -/
def rupeePart (amount : ℚ) : ℤ := pyInt amount

/-- Line 140: `paise = int((amount - rupees) * 100)`; the subtraction
and the multiplication are IEEE binary64 operations, each rounding its
exact result to the nearest double, and `int()` then truncates the
resulting double value. -/
def paisePart (amount : ℚ) : ℤ :=
  pyInt (dMul (dSub amount (rupeePart amount : ℚ)) 100)

/-- Modelled from the spec: word for a single nonzero digit, part of the
num2words rendering that is an external library, not code of this
repository. -/
def onesWord : Nat → String
  | 1 => "One" | 2 => "Two" | 3 => "Three" | 4 => "Four" | 5 => "Five"
  | 6 => "Six" | 7 => "Seven" | 8 => "Eight" | 9 => "Nine" | _ => ""

/-- Modelled from the spec: words for ten through nineteen, part of the
external num2words rendering. -/
def teenWord : Nat → String
  | 10 => "Ten" | 11 => "Eleven" | 12 => "Twelve" | 13 => "Thirteen" | 14 => "Fourteen"
  | 15 => "Fifteen" | 16 => "Sixteen" | 17 => "Seventeen" | 18 => "Eighteen"
  | 19 => "Nineteen" | _ => ""

/-- Modelled from the spec: words for the tens column, part of the
external num2words rendering. -/
def tensWord : Nat → String
  | 2 => "Twenty" | 3 => "Thirty" | 4 => "Forty" | 5 => "Fifty"
  | 6 => "Sixty" | 7 => "Seventy" | 8 => "Eighty" | 9 => "Ninety" | _ => ""

/-- Modelled from the spec: rendering of a sub-hundred group
(ones/teens/tens), part of the external num2words rendering. -/
def belowHundredWords (n : Nat) : String :=
  if n < 10 then onesWord n
  else if n < 20 then teenWord n
  else tensWord (n / 10) ++ (if n % 10 = 0 then "" else " " ++ onesWord (n % 10))

/-- Space-joining of the scale-band group strings. -/
def joinSpace : List String → String
  | [] => ""
  | [s] => s
  | s :: rest => s ++ " " ++ joinSpace rest

/-- Modelled from the spec: the Indian-English number rendering the
source delegates to the external num2words library (lang en_IN):
Indian grouping scale ones/teens/tens, then hundred, thousand, lakh
(10^5), crore (10^7), with a non-zero remainder joined by "and" only at
the final sub-hundred group. -/
def indianWords (n : Nat) : String :=
  let r := n % 100
  let h := n % 1000 / 100
  let t := n % 100000 / 1000
  let l := n % 10000000 / 100000
  let parts : List String :=
    (if hc : n / 10000000 = 0 then [] else [indianWords (n / 10000000) ++ " Crore"]) ++
    (if l = 0 then [] else [belowHundredWords l ++ " Lakh"]) ++
    (if t = 0 then [] else [belowHundredWords t ++ " Thousand"]) ++
    (if h = 0 then [] else [onesWord h ++ " Hundred"])
  if parts.isEmpty then belowHundredWords r
  else if r = 0 then joinSpace parts
  else joinSpace parts ++ " and " ++ belowHundredWords r
termination_by n
decreasing_by
  exact Nat.div_lt_self (Nat.pos_of_ne_zero (fun h0 => hc (by simp [h0]))) (by norm_num)

/-- An argument passed to the converter: either a numeric value or a
non-numeric one (such as float nan or inf) on which `int()` raises and
whose `"%.2f"` formatting yields the carried string. -/
inductive AmountInput where
  | val (q : ℚ)
  | nonNumeric (shown : String)
  deriving Repr, DecidableEq

/-- Lines 136-153: the converter body. The success path renders rupees
and paise; the bare `except:` path returns the plain numeric fallback
string from inside the function. -/
def indian_number_to_words : AmountInput → String
  | .val amount =>
    let rupees := rupeePart amount
    let paise := paisePart amount
    let rupee_words := if rupees = 0 then "Zero" else indianWords rupees.toNat
    if 0 < paise then
      rupee_words ++ " Rupees and " ++ belowHundredWords paise.toNat ++ " Paise Only"
    else
      rupee_words ++ " Rupees Only"
  | .nonNumeric shown => shown ++ " Rupees Only"

/-- Whether the bare `except:` branch of the converter produced the
result, i.e. whether a conversion failure was caught inside the
function rather than reported to the caller. -/
def converterFellBack : AmountInput → Bool
  | .val _ => false
  | .nonNumeric _ => true

/-- Truncation agrees with the mathematical floor on non-negative
rationals. -/
theorem pyInt_eq_floor (q : ℚ) (hq : 0 ≤ q) : pyInt q = ⌊q⌋ := by
  have hnum : 0 ≤ q.num := Rat.num_nonneg.mpr hq
  simp only [pyInt, if_pos hnum]
  rw [Rat.floor_def, Int.natCast_div, Int.toNat_of_nonneg hnum]

/-- Values below the midpoint of the next integer round down. -/
theorem roundHalfEven_eq_of (q : ℚ) (f : ℤ) (h1 : (f : ℚ) ≤ q) (h2 : q < f + 1 / 2) :
    roundHalfEven q = f := by
  have hfl : ⌊q⌋ = f := by
    rw [Int.floor_eq_iff]
    refine ⟨h1, ?_⟩
    linarith
  rw [roundHalfEven, hfl, if_pos (by linarith)]

/-- Integers are fixed points of the half-even rounding. -/
theorem roundHalfEven_intCast (m : ℤ) : roundHalfEven (m : ℚ) = m :=
  roundHalfEven_eq_of _ m le_rfl (by norm_num)

/-- The bit lengths of numerator and denominator locate a positive
fraction within one binade either way. -/
theorem binade_of_bounds (a b : ℕ) (ha : a ≠ 0) (hb : b ≠ 0) :
    (2 : ℚ) ^ ((Nat.log 2 a : ℤ) - (Nat.log 2 b : ℤ) - 1) < (a : ℚ) / (b : ℚ) ∧
    (a : ℚ) / (b : ℚ) < 2 ^ ((Nat.log 2 a : ℤ) - (Nat.log 2 b : ℤ) + 1) := by
  have hbq : (0 : ℚ) < (b : ℚ) := by exact_mod_cast Nat.pos_of_ne_zero hb
  have h1a : (2 : ℚ) ^ ((Nat.log 2 a : ℤ)) ≤ (a : ℚ) := by
    rw [zpow_natCast]
    exact_mod_cast Nat.pow_log_le_self 2 ha
  have h2a : (a : ℚ) < 2 ^ ((Nat.log 2 a : ℤ) + 1) := by
    rw [show (Nat.log 2 a : ℤ) + 1 = ((Nat.log 2 a + 1 : ℕ) : ℤ) by push_cast; ring,
      zpow_natCast]
    exact_mod_cast Nat.lt_pow_succ_log_self (by norm_num) a
  have h1b : (2 : ℚ) ^ ((Nat.log 2 b : ℤ)) ≤ (b : ℚ) := by
    rw [zpow_natCast]
    exact_mod_cast Nat.pow_log_le_self 2 hb
  have h2b : (b : ℚ) < 2 ^ ((Nat.log 2 b : ℤ) + 1) := by
    rw [show (Nat.log 2 b : ℤ) + 1 = ((Nat.log 2 b + 1 : ℕ) : ℤ) by push_cast; ring,
      zpow_natCast]
    exact_mod_cast Nat.lt_pow_succ_log_self (by norm_num) b
  constructor
  · rw [lt_div_iff₀ hbq]
    calc (2 : ℚ) ^ ((Nat.log 2 a : ℤ) - (Nat.log 2 b : ℤ) - 1) * (b : ℚ)
        < 2 ^ ((Nat.log 2 a : ℤ) - (Nat.log 2 b : ℤ) - 1) * 2 ^ ((Nat.log 2 b : ℤ) + 1) :=
          mul_lt_mul_of_pos_left h2b (zpow_pos (by norm_num) _)
      _ = 2 ^ ((Nat.log 2 a : ℤ)) := by
          rw [← zpow_add₀ (by norm_num : (2 : ℚ) ≠ 0)]
          congr 1
          omega
      _ ≤ (a : ℚ) := h1a
  · rw [div_lt_iff₀ hbq]
    calc (a : ℚ) < 2 ^ ((Nat.log 2 a : ℤ) + 1) := h2a
      _ = 2 ^ ((Nat.log 2 a : ℤ) - (Nat.log 2 b : ℤ) + 1) * 2 ^ ((Nat.log 2 b : ℤ)) := by
          rw [← zpow_add₀ (by norm_num : (2 : ℚ) ≠ 0)]
          congr 1
          omega
      _ ≤ 2 ^ ((Nat.log 2 a : ℤ) - (Nat.log 2 b : ℤ) + 1) * (b : ℚ) :=
          mul_le_mul_of_nonneg_left h1b (zpow_pos (by norm_num) _).le

/-- The computed binary logarithm satisfies its binade bounds. -/
theorem intLog2_spec (q : ℚ) (hq : 0 < q) :
    (2 : ℚ) ^ intLog2 q ≤ q ∧ q < 2 ^ (intLog2 q + 1) := by
  have hnum : 0 < q.num := Rat.num_pos.mpr hq
  have ha0 : q.num.toNat ≠ 0 := by omega
  have hb0 : q.den ≠ 0 := q.den_nz
  have hq_eq : (q.num.toNat : ℚ) / (q.den : ℚ) = q := by
    rw [show ((q.num.toNat : ℕ) : ℚ) = ((q.num.toNat : ℤ) : ℚ) by push_cast; ring,
      Int.toNat_of_nonneg hnum.le]
    exact Rat.num_div_den q
  obtain ⟨hB, hA⟩ := binade_of_bounds q.num.toNat q.den ha0 hb0
  rw [hq_eq] at hB hA
  rw [intLog2]
  split_ifs with htest
  · exact ⟨htest, hA⟩
  · push_neg at htest
    refine ⟨hB.le, ?_⟩
    rw [show (Nat.log 2 q.num.toNat : ℤ) - (Nat.log 2 q.den : ℤ) - 1 + 1
        = (Nat.log 2 q.num.toNat : ℤ) - (Nat.log 2 q.den : ℤ) by omega]
    exact htest

/-- The binade bounds determine the binary logarithm. -/
theorem intLog2_eq (q : ℚ) (e : ℤ) (h1 : (2 : ℚ) ^ e ≤ q) (h2 : q < 2 ^ (e + 1)) :
    intLog2 q = e := by
  have hq : 0 < q := lt_of_lt_of_le (zpow_pos (by norm_num) e) h1
  obtain ⟨s1, s2⟩ := intLog2_spec q hq
  have c1 : intLog2 q < e + 1 := by
    by_contra hcon
    push_neg at hcon
    have := zpow_le_zpow_right₀ (by norm_num : (1 : ℚ) ≤ 2) hcon
    linarith
  have c2 : e < intLog2 q + 1 := by
    by_contra hcon
    push_neg at hcon
    have := zpow_le_zpow_right₀ (by norm_num : (1 : ℚ) ≤ 2) hcon
    linarith
  omega

/-- Unfolding of the binary64 rounding once the binade is known. -/
theorem roundDouble_eq (q : ℚ) (e : ℤ) (h1 : (2 : ℚ) ^ e ≤ q) (h2 : q < 2 ^ (e + 1)) :
    roundDouble q = (roundHalfEven (q / 2 ^ (e - 52)) : ℚ) * 2 ^ (e - 52) := by
  have hq : 0 < q := lt_of_lt_of_le (zpow_pos (by norm_num) e) h1
  rw [roundDouble, if_neg hq.ne', abs_of_pos hq, intLog2_eq q e h1 h2]

/-- A value whose scaled significand is an integer is exactly
representable and rounds to itself scaled back. -/
theorem roundDouble_eq_of_int (q : ℚ) (e : ℤ) (m : ℤ)
    (h1 : (2 : ℚ) ^ e ≤ q) (h2 : q < 2 ^ (e + 1))
    (hm : q / 2 ^ (e - 52) = (m : ℚ)) :
    roundDouble q = (m : ℚ) * 2 ^ (e - 52) := by
  rw [roundDouble_eq q e h1 h2, hm, roundHalfEven_intCast]

/-- A value whose scaled significand lies below the rounding midpoint
rounds down to the enclosing double. -/
theorem roundDouble_eq_of_near (q : ℚ) (e : ℤ) (m : ℤ)
    (h1 : (2 : ℚ) ^ e ≤ q) (h2 : q < 2 ^ (e + 1))
    (hlo : (m : ℚ) ≤ q / 2 ^ (e - 52)) (hhi : q / 2 ^ (e - 52) < m + 1 / 2) :
    roundDouble q = (m : ℚ) * 2 ^ (e - 52) := by
  rw [roundDouble_eq q e h1 h2, roundHalfEven_eq_of _ m hlo hhi]

/-- The full double trace of the converter at the literal 1234.56: the
literal is stored as the double 5429652300748554 / 2^42 (just below
1234.56), the rupee part is 1234, the subtraction and the
multiplication by 100 are exact and give 55.99999999999945...,
truncation yields paise 55, and the rendered output says Fifty Five. -/
theorem double_1234_56_trace :
    roundDouble (123456 / 100 : ℚ) = 5429652300748554 / 2 ^ 42 ∧
    rupeePart (5429652300748554 / 2 ^ 42 : ℚ) = 1234 ∧
    paisePart (5429652300748554 / 2 ^ 42 : ℚ) = 55 ∧
    indian_number_to_words (.val (5429652300748554 / 2 ^ 42)) =
      "One Thousand Two Hundred and Thirty Four Rupees and Fifty Five Paise Only" := by
  have hD : roundDouble (123456 / 100 : ℚ) = 5429652300748554 / 2 ^ 42 := by
    have h := roundDouble_eq_of_near (123456 / 100 : ℚ) 10 5429652300748554
      (by norm_num) (by norm_num) (by norm_num) (by norm_num)
    rw [h]
    norm_num
  have hR : rupeePart (5429652300748554 / 2 ^ 42 : ℚ) = 1234 := by
    unfold rupeePart
    rw [pyInt_eq_floor _ (by norm_num)]
    norm_num [Int.floor_eq_iff]
  have hsub : dSub (5429652300748554 / 2 ^ 42 : ℚ) 1234 = 2462906046218 / 2 ^ 42 := by
    rw [dSub,
      show (5429652300748554 / 2 ^ 42 : ℚ) - 1234 = 2462906046218 / 2 ^ 42 by norm_num]
    have h := roundDouble_eq_of_int (2462906046218 / 2 ^ 42 : ℚ) (-1) 5044031582654464
      (by norm_num) (by norm_num) (by norm_num)
    rw [h]
    norm_num
  have hmul : dMul (2462906046218 / 2 ^ 42 : ℚ) 100 = 246290604621800 / 2 ^ 42 := by
    rw [dMul,
      show (2462906046218 / 2 ^ 42 : ℚ) * 100 = 246290604621800 / 2 ^ 42 by norm_num]
    have h := roundDouble_eq_of_int (246290604621800 / 2 ^ 42 : ℚ) 5 7881299347897600
      (by norm_num) (by norm_num) (by norm_num)
    rw [h]
    norm_num
  have hP : paisePart (5429652300748554 / 2 ^ 42 : ℚ) = 55 := by
    unfold paisePart
    rw [hR, show ((1234 : ℤ) : ℚ) = 1234 by norm_num, hsub, hmul,
      pyInt_eq_floor _ (by norm_num)]
    norm_num [Int.floor_eq_iff]
  refine ⟨hD, hR, hP, ?_⟩
  have hw : indianWords 1234 = "One Thousand Two Hundred and Thirty Four" := by
    rw [indianWords]
    norm_num [belowHundredWords, onesWord, teenWord, tensWord, joinSpace]
    decide
  simp only [indian_number_to_words, hR, hP]
  simp [hw, belowHundredWords, tensWord, onesWord]

end PWD

/-- C2 counterexample: the program receives the literal 1234.56 as the
double 5429652300748554 / 2^42; for it the converter's paise part is 55
(the double product (amount - 1234) * 100 is 55.99999999999945... and
int() truncates it) while round(fractional * 100) is 56, so the paise
part is not round(fractional * 100), and the rendered output at the
claim's own input 1234.56 says "Fifty Five Paise Only", not the claimed
"Fifty Six Paise Only". -/
theorem paise_rounding_counterexample :
    PWD.paisePart (PWD.roundDouble (123456 / 100)) ≠
      round ((PWD.roundDouble (123456 / 100) -
        (PWD.rupeePart (PWD.roundDouble (123456 / 100)) : ℚ)) * 100) ∧
    PWD.indian_number_to_words (.val (PWD.roundDouble (123456 / 100))) =
      "One Thousand Two Hundred and Thirty Four Rupees and Fifty Five Paise Only" := by
  obtain ⟨hD, hR, hP, hW⟩ := PWD.double_1234_56_trace
  rw [hD, hR, hP]
  refine ⟨?_, hW⟩
  have h56 : round (((5429652300748554 / 2 ^ 42 : ℚ) - ((1234 : ℤ) : ℚ)) * 100) = 56 := by
    rw [round_eq]
    norm_num [Int.floor_eq_iff]
  rw [h56]
  decide

/-- C2 (amended): for every non-negative amount the converter's rupee
part is int(amount) = floor(amount), and its paise part is
int((amount - rupees) * 100) evaluated in IEEE binary64 arithmetic -
truncation of the double product, not round(fractional * 100). In
particular the input 1234.56 is stored as the double
5429652300748554 / 2^42, just below 1234.56; its paise part is 55 and
the output is exactly "One Thousand Two Hundred and Thirty Four Rupees
and Fifty Five Paise Only" (word rendering modelled from the spec, the
source delegating it to the num2words library). -/
theorem currency_split_truncates (q : ℚ) (hq : 0 ≤ q) :
    PWD.rupeePart q = ⌊q⌋ ∧
    PWD.paisePart q = PWD.pyInt (PWD.dMul (PWD.dSub q ((⌊q⌋ : ℤ) : ℚ)) 100) ∧
    PWD.roundDouble (123456 / 100) = 5429652300748554 / 2 ^ 42 ∧
    PWD.paisePart (5429652300748554 / 2 ^ 42) = 55 ∧
    PWD.indian_number_to_words (.val (5429652300748554 / 2 ^ 42)) =
      "One Thousand Two Hundred and Thirty Four Rupees and Fifty Five Paise Only" := by
  obtain ⟨hD, hR, hP, hW⟩ := PWD.double_1234_56_trace
  have hfloor : PWD.rupeePart q = ⌊q⌋ := PWD.pyInt_eq_floor q hq
  refine ⟨hfloor, ?_, hD, hP, hW⟩
  unfold PWD.paisePart
  rw [hfloor]

/-- Witness for C2 (amended) at amount 2.5, together with the concrete
1234.56 double trace. -/
theorem currency_split_truncates_witness :
    (0 : ℚ) ≤ 5 / 2 ∧
    (PWD.rupeePart (5 / 2) = ⌊(5 / 2 : ℚ)⌋ ∧
     PWD.paisePart (5 / 2) =
       PWD.pyInt (PWD.dMul (PWD.dSub (5 / 2) ((⌊(5 / 2 : ℚ)⌋ : ℤ) : ℚ)) 100) ∧
     PWD.roundDouble (123456 / 100) = 5429652300748554 / 2 ^ 42 ∧
     PWD.paisePart (5429652300748554 / 2 ^ 42) = 55 ∧
     PWD.indian_number_to_words (.val (5429652300748554 / 2 ^ 42)) =
       "One Thousand Two Hundred and Thirty Four Rupees and Fifty Five Paise Only") :=
  ⟨by norm_num, currency_split_truncates (5 / 2) (by norm_num)⟩

/-- C5 counterexample: on the non-numeric input whose numeric rendering
is "nan", the converter itself catches the failure and returns the
fallback string "nan Rupees Only"; no explicit error ever reaches the
caller, contradicting the claim that the fallback is a caller-side
policy and never a swallowed exception inside the converter. -/
theorem converter_swallows_counterexample :
    PWD.converterFellBack (.nonNumeric "nan") = true ∧
    PWD.indian_number_to_words (.nonNumeric "nan") = "nan Rupees Only" := by
  exact ⟨rfl, rfl⟩

/-- C5 (amended): the converter reports no error to the caller: for
every unparseable input it internally catches the conversion failure
and itself returns the plain numeric fallback "<amount formatted to 2
decimals> Rupees Only", while numeric inputs never take the fallback
branch. -/
theorem converter_internal_fallback :
    (∀ shown : String,
      PWD.indian_number_to_words (.nonNumeric shown) = shown ++ " Rupees Only" ∧
      PWD.converterFellBack (.nonNumeric shown) = true) ∧
    (∀ q : ℚ, PWD.converterFellBack (.val q) = false) := by
  exact ⟨fun shown => ⟨rfl, rfl⟩, fun q => rfl⟩

namespace PWD

/-! ## Bulk receipt generator (streamlit_app.py, show_excel_emd)

One spreadsheet row is a payee string, a work string and an amount
cell. An amount cell is embedded by how the Python conversion behaves
on it: a numeric value, a non-numeric value on which `float()` raises
(carrying its string rendering), or a missing (NaN) value caught by the
`pd.isna` check. The loop at lines 525-544 walks the rows with the
0-based frame index, collects one receipt per valid row and one
`(idx + 2, reason)` entry per invalid row, and never breaks out.
-/

inductive Cell where
  | num (q : ℚ)
  | nonNum (raw : String)
  | na
  deriving Repr, DecidableEq

structure RawRow where
  payee : String
  work : String
  amount : Cell
  deriving Repr, DecidableEq

/-- Whitespace as stripped by the Python `str.strip()`. -/
def pyIsSpace (c : Char) : Bool :=
  c = ' ' || c = '\t' || c = '\n' || c = '\r' || c = '\x0b' || c = '\x0c'

/-- The Python `name.strip()`. -/
def pyStrip (s : String) : String :=
  String.mk (((s.data.dropWhile pyIsSpace).reverse.dropWhile pyIsSpace).reverse)

/-- Characters kept by the `[^A-Za-z0-9._-]+` pattern of
`sanitize_filename` (streamlit_app.py line 301). -/
def isSafeChar (c : Char) : Bool :=
  ('A' ≤ c && c ≤ 'Z') || ('a' ≤ c && c ≤ 'z') || ('0' ≤ c && c ≤ '9') ||
    c = '.' || c = '_' || c = '-'

/-- The `re.sub` replacing each maximal run of unsafe characters with a
single underscore; the flag records whether the previous character was
part of such a run. -/
def collapseUnsafe : List Char → Bool → List Char
  | [], _ => []
  | c :: rest, prevBad =>
    if isSafeChar c then c :: collapseUnsafe rest false
    else if prevBad then collapseUnsafe rest true
    else '_' :: collapseUnsafe rest true

/-- Lines 300-302: strip, collapse unsafe runs to underscores, truncate
to 80 characters, and fall back to "receipt" when empty. -/
def sanitize_filename (name : String) : String :=
  let safe := String.mk (collapseUnsafe (pyStrip name).data false)
  let truncated := String.mk (safe.data.take 80)
  if truncated = "" then "receipt" else truncated

/-- Decimal digit characters of `n`, most significant first, computed
with structural fuel recursion so the kernel can evaluate it. -/
def decCharsAux : Nat → Nat → List Char
  | 0, _ => []
  | _ + 1, 0 => []
  | fuel + 1, n => decCharsAux fuel (n / 10) ++ [Nat.digitChar (n % 10)]

/-- The decimal rendering of a natural number, as produced by the
Python f-string interpolation of the row index. -/
def decChars (n : Nat) : List Char :=
  if n = 0 then ['0'] else decCharsAux n n

def decRepr (n : Nat) : String := String.mk (decChars n)

/-- Line 539: `f"hand_receipt_{sanitize_filename(payee)}_{idx}.html"`. -/
def mkReceiptFilename (payee : String) (idx : Nat) : String :=
  "hand_receipt_" ++ sanitize_filename payee ++ "_" ++ decRepr idx ++ ".html"

/-- Line 536: the reason recorded for a row whose amount fails the
`float()` conversion; it embeds the offending raw value (the exception
text shown in parentheses is the CPython ValueError message). -/
def invalidAmountMsg (raw : String) : String :=
  "Invalid amount value: " ++ raw ++ " (Error: could not convert string to float: " ++
    raw ++ ")"

structure Receipt where
  rowIdx : Nat
  payee : String
  amount : ℚ
  work : String
  filename : String
  deriving Repr, DecidableEq

/-- One iteration of the row loop (lines 525-544): the `pd.isna` check,
then the `float()` conversion, then receipt construction. -/
def stepRow (idx : Nat) (r : RawRow) : Receipt ⊕ (Nat × String) :=
  match r.amount with
  | .na => Sum.inr (idx + 2, "Missing required values")
  | .nonNum raw => Sum.inr (idx + 2, invalidAmountMsg raw)
  | .num q =>
    Sum.inl { rowIdx := idx, payee := r.payee, amount := q, work := r.work,
              filename := mkReceiptFilename r.payee idx }

/-- The whole loop from frame index `idx` on: accumulates the receipt
list and the invalid-row list in row order, continuing past failures. -/
def processRows (idx : Nat) : List RawRow → List Receipt × List (Nat × String)
  | [] => ([], [])
  | r :: rest =>
    let out := processRows (idx + 1) rest
    match stepRow idx r with
    | Sum.inl rcpt => (rcpt :: out.1, out.2)
    | Sum.inr inv => (out.1, inv :: out.2)

/-- Lines 522-544: the batch run over all rows, starting at frame
index 0 (pandas default RangeIndex). -/
def generateReceipts (rows : List RawRow) : List Receipt × List (Nat × String) :=
  processRows 0 rows

/-- A row whose amount cell converts, i.e. takes the success branch of
the loop body. -/
def rowAmountValid (r : RawRow) : Bool :=
  match r.amount with
  | .num _ => true
  | _ => false

end PWD

namespace PWD

/-- Distinct decimal digits render to distinct characters. -/
theorem digitChar_lt_ten_inj : ∀ m < 10, ∀ n < 10, Nat.digitChar m = Nat.digitChar n → m = n := by
  decide

/-- Decimal digit characters are never an underscore. -/
theorem digitChar_ne_underscore : ∀ d < 10, Nat.digitChar d ≠ '_' := by
  decide

/-- The fuelled digit renderer agrees with the base-10 digit list as
long as the fuel covers the value. -/
theorem decCharsAux_eq :
    ∀ fuel n, 0 < n → n ≤ fuel →
      decCharsAux fuel n = ((Nat.digits 10 n).map Nat.digitChar).reverse := by
  intro fuel
  induction fuel with
  | zero => intro n h1 h2; omega
  | succ fuel ih =>
    intro n h1 h2
    obtain ⟨m, rfl⟩ : ∃ m, n = m + 1 := ⟨n - 1, by omega⟩
    rw [show decCharsAux (fuel + 1) (m + 1)
        = decCharsAux fuel ((m + 1) / 10) ++ [Nat.digitChar ((m + 1) % 10)] from rfl]
    rw [Nat.digits_def' (by norm_num : (1 : ℕ) < 10) h1]
    simp only [List.map_cons, List.reverse_cons]
    congr 1
    by_cases hz : (m + 1) / 10 = 0
    · rw [hz]
      simp only [Nat.digits_zero, List.map_nil, List.reverse_nil]
      cases fuel <;> rfl
    · have hlt : (m + 1) / 10 < m + 1 := Nat.div_lt_self h1 (by norm_num)
      exact ih ((m + 1) / 10) (Nat.pos_of_ne_zero hz) (by omega)

/-- The decimal rendering of a positive number is the base-10 digit
list, most significant first. -/
theorem decChars_eq (n : Nat) (h : n ≠ 0) :
    decChars n = ((Nat.digits 10 n).map Nat.digitChar).reverse := by
  rw [decChars, if_neg h]
  exact decCharsAux_eq n n (Nat.pos_of_ne_zero h) le_rfl

/-- Every character of a decimal rendering is a digit character. -/
theorem mem_decChars (n : Nat) (c : Char) (hc : c ∈ decChars n) :
    ∃ d, d < 10 ∧ c = Nat.digitChar d := by
  by_cases h : n = 0
  · subst h
    rw [show decChars 0 = ['0'] from rfl, List.mem_singleton] at hc
    exact ⟨0, by norm_num, by rw [hc]; rfl⟩
  · rw [decChars_eq n h, List.mem_reverse, List.mem_map] at hc
    obtain ⟨d, hd, rfl⟩ := hc
    exact ⟨d, Nat.digits_lt_base (by norm_num) hd, rfl⟩

/-- Decimal renderings never contain an underscore. -/
theorem decChars_no_underscore (n : Nat) (c : Char) (hc : c ∈ decChars n) : c ≠ '_' := by
  obtain ⟨d, hd, rfl⟩ := mem_decChars n c hc
  exact digitChar_ne_underscore d hd

/-- Digit lists below the base render injectively to characters. -/
theorem map_digitChar_inj :
    ∀ (l1 l2 : List ℕ), (∀ d ∈ l1, d < 10) → (∀ d ∈ l2, d < 10) →
      l1.map Nat.digitChar = l2.map Nat.digitChar → l1 = l2 := by
  intro l1
  induction l1 with
  | nil => intro l2 _ _ h; cases l2 <;> simp_all
  | cons a l1 ih =>
    intro l2 hb1 hb2 h
    cases l2 with
    | nil => simp_all
    | cons b l2 =>
      simp only [List.map_cons, List.cons.injEq] at h
      have hab : a = b :=
        digitChar_lt_ten_inj a (hb1 a (by simp)) b (hb2 b (by simp)) h.1
      have htl : l1 = l2 :=
        ih l2 (fun d hd => hb1 d (by simp [hd])) (fun d hd => hb2 d (by simp [hd])) h.2
      rw [hab, htl]

/-- The decimal rendering is injective. -/
theorem decChars_inj (m n : Nat) (h : decChars m = decChars n) : m = n := by
  by_cases hm : m = 0 <;> by_cases hn : n = 0
  · omega
  · exfalso
    subst hm
    rw [show decChars 0 = ['0'] from rfl, decChars_eq n hn] at h
    have hmap : (Nat.digits 10 n).map Nat.digitChar = ['0'] := by
      have := congrArg List.reverse h
      simpa using this.symm
    obtain ⟨d, hdig, hchar⟩ : ∃ d, Nat.digits 10 n = [d] ∧ Nat.digitChar d = '0' := by
      cases hdg : (Nat.digits 10 n) with
      | nil => rw [hdg] at hmap; simp at hmap
      | cons d rest =>
        rw [hdg] at hmap
        simp only [List.map_cons, List.cons.injEq, List.map_eq_nil_iff] at hmap
        exact ⟨d, by rw [hmap.2], hmap.1⟩
    have hd10 : d < 10 := Nat.digits_lt_base (by norm_num) (by rw [hdig]; simp)
    have hd0 : d = 0 :=
      digitChar_lt_ten_inj d hd10 0 (by norm_num) (by rw [hchar]; rfl)
    have := Nat.ofDigits_digits 10 n
    rw [hdig, hd0] at this
    simp [Nat.ofDigits] at this
    exact hn this.symm
  · exfalso
    subst hn
    rw [decChars_eq m hm, show decChars 0 = ['0'] from rfl] at h
    have hmap : (Nat.digits 10 m).map Nat.digitChar = ['0'] := by
      have := congrArg List.reverse h
      simpa using this
    obtain ⟨d, hdig, hchar⟩ : ∃ d, Nat.digits 10 m = [d] ∧ Nat.digitChar d = '0' := by
      cases hdg : (Nat.digits 10 m) with
      | nil => rw [hdg] at hmap; simp at hmap
      | cons d rest =>
        rw [hdg] at hmap
        simp only [List.map_cons, List.cons.injEq, List.map_eq_nil_iff] at hmap
        exact ⟨d, by rw [hmap.2], hmap.1⟩
    have hd10 : d < 10 := Nat.digits_lt_base (by norm_num) (by rw [hdig]; simp)
    have hd0 : d = 0 :=
      digitChar_lt_ten_inj d hd10 0 (by norm_num) (by rw [hchar]; rfl)
    have := Nat.ofDigits_digits 10 m
    rw [hdig, hd0] at this
    simp [Nat.ofDigits] at this
    exact hm this.symm
  · rw [decChars_eq m hm, decChars_eq n hn] at h
    have hrev := congrArg List.reverse h
    simp only [List.reverse_reverse] at hrev
    have hdig := map_digitChar_inj _ _
      (fun d hd => Nat.digits_lt_base (by norm_num) hd)
      (fun d hd => Nat.digits_lt_base (by norm_num) hd) hrev
    have h1 := Nat.ofDigits_digits 10 m
    have h2 := Nat.ofDigits_digits 10 n
    rw [hdig] at h1
    rw [h2] at h1
    exact h1.symm

/-- Splitting two equal lists at an underscore that follows an
underscore-free block identifies the blocks and the remainders. -/
theorem append_underscore_inj :
    ∀ (u v x y : List Char), '_' ∉ u → '_' ∉ v →
      u ++ '_' :: x = v ++ '_' :: y → u = v ∧ x = y := by
  intro u
  induction u with
  | nil =>
    intro v x y _ hv h
    cases v with
    | nil => simpa using h
    | cons b bs =>
      exfalso
      simp only [List.nil_append, List.cons_append, List.cons.injEq] at h
      exact hv (by rw [← h.1]; simp)
  | cons a as ih =>
    intro v x y hu hv h
    cases v with
    | nil =>
      exfalso
      simp only [List.cons_append, List.nil_append, List.cons.injEq] at h
      exact hu (by rw [h.1]; simp)
    | cons b bs =>
      simp only [List.cons_append, List.cons.injEq] at h
      obtain ⟨h1, h2⟩ := h
      have hu2 : '_' ∉ as := fun hm => hu (by simp [hm])
      have hv2 : '_' ∉ bs := fun hm => hv (by simp [hm])
      obtain ⟨e1, e2⟩ := ih bs x y hu2 hv2 h2
      exact ⟨by rw [h1, e1], e2⟩

theorem decRepr_data (n : Nat) : (decRepr n).data = decChars n := rfl

/-- Filenames built for different frame indices differ: the decimal
index block sits between the last underscore and the ".html" suffix,
and decimal renderings are injective. -/
theorem mkReceiptFilename_inj {p q : String} {i j : Nat}
    (h : mkReceiptFilename p i = mkReceiptFilename q j) : i = j := by
  have hd : (mkReceiptFilename p i).data = (mkReceiptFilename q j).data := by rw [h]
  simp only [mkReceiptFilename, String.data_append] at hd
  have hrev := congrArg List.reverse hd
  simp only [List.reverse_append] at hrev
  have hcancel := List.append_cancel_left hrev
  simp only [decRepr_data, List.reverse_cons, List.reverse_nil, List.nil_append,
    List.singleton_append] at hcancel
  have hno1 : '_' ∉ (decChars i).reverse := by
    intro hm
    rw [List.mem_reverse] at hm
    exact decChars_no_underscore i _ hm rfl
  have hno2 : '_' ∉ (decChars j).reverse := by
    intro hm
    rw [List.mem_reverse] at hm
    exact decChars_no_underscore j _ hm rfl
  obtain ⟨hDeq, _⟩ := append_underscore_inj _ _ _ _ hno1 hno2 hcancel
  have hdec : decChars i = decChars j := by
    have := congrArg List.reverse hDeq
    simpa using this
  exact decChars_inj i j hdec

end PWD

namespace PWD

theorem processRows_cons_num (idx : Nat) (r : RawRow) (rest : List RawRow) (q : ℚ)
    (h : r.amount = Cell.num q) :
    processRows idx (r :: rest) =
      (({ rowIdx := idx, payee := r.payee, amount := q, work := r.work,
          filename := mkReceiptFilename r.payee idx } : Receipt)
            :: (processRows (idx + 1) rest).1,
        (processRows (idx + 1) rest).2) := by
  simp [processRows, stepRow, h]

theorem processRows_cons_nonNum (idx : Nat) (r : RawRow) (rest : List RawRow) (raw : String)
    (h : r.amount = Cell.nonNum raw) :
    processRows idx (r :: rest) =
      ((processRows (idx + 1) rest).1,
        (idx + 2, invalidAmountMsg raw) :: (processRows (idx + 1) rest).2) := by
  simp [processRows, stepRow, h]

theorem processRows_cons_na (idx : Nat) (r : RawRow) (rest : List RawRow)
    (h : r.amount = Cell.na) :
    processRows idx (r :: rest) =
      ((processRows (idx + 1) rest).1,
        (idx + 2, "Missing required values") :: (processRows (idx + 1) rest).2) := by
  simp [processRows, stepRow, h]

/-- Every produced receipt carries a frame index at or past the start
index, and its filename is built from its own payee and index. -/
theorem processRows_mem_facts :
    ∀ (rows : List RawRow) (idx : Nat) (rcpt : Receipt),
      rcpt ∈ (processRows idx rows).1 →
      idx ≤ rcpt.rowIdx ∧ rcpt.filename = mkReceiptFilename rcpt.payee rcpt.rowIdx := by
  intro rows
  induction rows with
  | nil => intro idx rcpt h; simp [processRows] at h
  | cons r rest ih =>
    intro idx rcpt h
    cases hamt : r.amount with
    | num q =>
      rw [processRows_cons_num idx r rest q hamt] at h
      rcases List.mem_cons.mp h with hhd | htl
      · subst hhd
        exact ⟨le_rfl, rfl⟩
      · obtain ⟨hle, hf⟩ := ih (idx + 1) rcpt htl
        exact ⟨by omega, hf⟩
    | nonNum raw =>
      rw [processRows_cons_nonNum idx r rest raw hamt] at h
      obtain ⟨hle, hf⟩ := ih (idx + 1) rcpt h
      exact ⟨by omega, hf⟩
    | na =>
      rw [processRows_cons_na idx r rest hamt] at h
      obtain ⟨hle, hf⟩ := ih (idx + 1) rcpt h
      exact ⟨by omega, hf⟩

/-- Receipts come out in strictly increasing frame-index order. -/
theorem processRows_pairwise_lt :
    ∀ (rows : List RawRow) (idx : Nat),
      ((processRows idx rows).1).Pairwise (fun a b => a.rowIdx < b.rowIdx) := by
  intro rows
  induction rows with
  | nil => intro idx; simp [processRows]
  | cons r rest ih =>
    intro idx
    cases hamt : r.amount with
    | num q =>
      rw [processRows_cons_num idx r rest q hamt]
      refine List.pairwise_cons.mpr ⟨?_, ih (idx + 1)⟩
      intro b hb
      have := (processRows_mem_facts rest (idx + 1) b hb).1
      simpa using by omega
    | nonNum raw =>
      rw [processRows_cons_nonNum idx r rest raw hamt]
      exact ih (idx + 1)
    | na =>
      rw [processRows_cons_na idx r rest hamt]
      exact ih (idx + 1)

/-- The loop distributes over list concatenation, with the start index
shifted by the length of the first block. -/
theorem processRows_append :
    ∀ (xs ys : List RawRow) (idx : Nat),
      processRows idx (xs ++ ys) =
        ((processRows idx xs).1 ++ (processRows (idx + xs.length) ys).1,
          (processRows idx xs).2 ++ (processRows (idx + xs.length) ys).2) := by
  intro xs
  induction xs with
  | nil => intro ys idx; simp [processRows]
  | cons r rest ih =>
    intro ys idx
    have harith : idx + (rest.length + 1) = (idx + 1) + rest.length := by omega
    cases hamt : r.amount with
    | num q =>
      rw [List.cons_append, processRows_cons_num idx r (rest ++ ys) q hamt,
        processRows_cons_num idx r rest q hamt, ih ys (idx + 1)]
      simp [List.length_cons, harith]
    | nonNum raw =>
      rw [List.cons_append, processRows_cons_nonNum idx r (rest ++ ys) raw hamt,
        processRows_cons_nonNum idx r rest raw hamt, ih ys (idx + 1)]
      simp [List.length_cons, harith]
    | na =>
      rw [List.cons_append, processRows_cons_na idx r (rest ++ ys) hamt,
        processRows_cons_na idx r rest hamt, ih ys (idx + 1)]
      simp [List.length_cons, harith]

/-- On a block of rows that all convert, the loop produces one receipt
per row, in row order, and no invalid entry. -/
theorem processRows_all_valid :
    ∀ (rows : List RawRow) (idx : Nat), (∀ r ∈ rows, rowAmountValid r = true) →
      ((processRows idx rows).1).map Receipt.rowIdx = List.range' idx rows.length ∧
      (processRows idx rows).2 = [] := by
  intro rows
  induction rows with
  | nil => intro idx _; simp [processRows]
  | cons r rest ih =>
    intro idx hval
    cases hamt : r.amount with
    | num q =>
      obtain ⟨hmap, hinv⟩ := ih (idx + 1) (fun s hs => hval s (by simp [hs]))
      rw [processRows_cons_num idx r rest q hamt]
      refine ⟨?_, hinv⟩
      simp only [List.map_cons, hmap, List.length_cons]
      rw [List.range'_succ]
    | nonNum raw =>
      have := hval r (by simp)
      simp [rowAmountValid, hamt] at this
    | na =>
      have := hval r (by simp)
      simp [rowAmountValid, hamt] at this

end PWD

namespace PWD

/-- A concrete valid row used to instantiate the batch theorems. -/
def wRow1 : RawRow := { payee := "Alice Kumar", work := "Road repair", amount := .num 500 }

/-- A concrete row whose amount fails the `float()` conversion. -/
def wRowBad : RawRow := { payee := "Bob Singh", work := "Bridge work", amount := .nonNum "abc" }

/-- A second concrete valid row sharing the payee of the first. -/
def wRow2 : RawRow := { payee := "Alice Kumar", work := "Drain cleaning", amount := .num 700 }

end PWD

/-- C10: in every batch run, each valid row's filename is the sanitized
payee name joined with the row's frame index, and the filenames of the
produced receipts are pairwise distinct, even when payee names repeat,
so no receipt overwrites another in the batch output. -/
theorem batch_filenames_unique (rows : List PWD.RawRow) :
    (((PWD.generateReceipts rows).1).map PWD.Receipt.filename).Nodup ∧
    (∀ rcpt ∈ (PWD.generateReceipts rows).1,
      rcpt.filename = PWD.mkReceiptFilename rcpt.payee rcpt.rowIdx) := by
  constructor
  · have hp := PWD.processRows_pairwise_lt rows 0
    have hstep :
        ((PWD.processRows 0 rows).1).Pairwise (fun a b => a.filename ≠ b.filename) := by
      refine List.Pairwise.imp_of_mem ?_ hp
      intro a b ha hb hlt heq
      obtain ⟨-, hfa⟩ := PWD.processRows_mem_facts rows 0 a ha
      obtain ⟨-, hfb⟩ := PWD.processRows_mem_facts rows 0 b hb
      rw [hfa, hfb] at heq
      exact absurd (PWD.mkReceiptFilename_inj heq) (by omega)
    exact List.pairwise_map.mpr hstep
  · intro rcpt h
    exact (PWD.processRows_mem_facts rows 0 rcpt h).2

/-- Witness for C10 on a concrete two-row batch whose rows share the
same payee name: the generated filenames are distinct and each is the
sanitized payee plus the frame index. -/
theorem batch_filenames_unique_witness :
    (((PWD.generateReceipts [PWD.wRow1, PWD.wRow2]).1).map PWD.Receipt.filename).Nodup ∧
    (∀ rcpt ∈ (PWD.generateReceipts [PWD.wRow1, PWD.wRow2]).1,
      rcpt.filename = PWD.mkReceiptFilename rcpt.payee rcpt.rowIdx) :=
  batch_filenames_unique [PWD.wRow1, PWD.wRow2]

/-- C3 counterexample: in a two-row batch whose first input row
(1-indexed row 1) has the non-numeric amount "abc", the single invalid
entry records row number 2 - the spreadsheet row including the header
line - not the 1-indexed input row 1 the claim names. -/
theorem batch_row_citation_counterexample :
    ((PWD.generateReceipts [PWD.wRowBad, PWD.wRow1]).2).map Prod.fst = [2] ∧ (2 : ℕ) ≠ 1 := by
  constructor
  · decide
  · decide

/-- C3 (amended): a batch of N rows in which exactly one row - the
(k = pre.length + 1)-th input row, 1-indexed - has a non-numeric
amount and all other rows are valid produces exactly N - 1 receipts,
keeps every other row (the receipt indices are exactly all frame
indices except the bad row's), never aborts early, and records exactly
one invalid entry, whose row number is k + 1 (the spreadsheet row,
offset by one for the header line) and whose reason includes the
offending raw value. -/
theorem batch_single_invalid_row (pre post : List PWD.RawRow) (bad : PWD.RawRow)
    (raw : String)
    (hpre : ∀ r ∈ pre, PWD.rowAmountValid r = true)
    (hpost : ∀ r ∈ post, PWD.rowAmountValid r = true)
    (hbad : bad.amount = PWD.Cell.nonNum raw) :
    ((PWD.generateReceipts (pre ++ bad :: post)).1).length = (pre ++ bad :: post).length - 1 ∧
    ((PWD.generateReceipts (pre ++ bad :: post)).1).map PWD.Receipt.rowIdx =
      List.range' 0 pre.length ++ List.range' (pre.length + 1) post.length ∧
    (PWD.generateReceipts (pre ++ bad :: post)).2 =
      [(pre.length + 2, PWD.invalidAmountMsg raw)] ∧
    ∃ s t, PWD.invalidAmountMsg raw = s ++ raw ++ t := by
  obtain ⟨hmap1, hinv1⟩ := PWD.processRows_all_valid pre 0 hpre
  obtain ⟨hmap2, hinv2⟩ := PWD.processRows_all_valid post (pre.length + 1) hpost
  have hsplit : PWD.generateReceipts (pre ++ bad :: post) =
      ((PWD.processRows 0 pre).1 ++ (PWD.processRows (pre.length + 1) post).1,
        (PWD.processRows 0 pre).2 ++
          ((pre.length + 2, PWD.invalidAmountMsg raw)
            :: (PWD.processRows (pre.length + 1) post).2)) := by
    rw [PWD.generateReceipts, PWD.processRows_append pre (bad :: post) 0]
    rw [PWD.processRows_cons_nonNum _ _ _ _ hbad]
    simp
  have hlen1 : ((PWD.processRows 0 pre).1).length = pre.length := by
    have := congrArg List.length hmap1
    simpa using this
  have hlen2 : ((PWD.processRows (pre.length + 1) post).1).length = post.length := by
    have := congrArg List.length hmap2
    simpa using this
  refine ⟨?_, ?_, ?_, ?_⟩
  · rw [hsplit]
    simp [hlen1, hlen2]
  · rw [hsplit]
    simp [hmap1, hmap2]
  · rw [hsplit, hinv1, hinv2]
    simp
  · refine ⟨"Invalid amount value: ",
      " (Error: could not convert string to float: " ++ raw ++ ")", ?_⟩
    simp [PWD.invalidAmountMsg, String.append_assoc]

/-- Witness for C3 on a concrete three-row batch whose middle row has
the non-numeric amount "abc": two receipts, receipt indices 0 and 2,
and a single invalid entry for spreadsheet row 3. -/
theorem batch_single_invalid_row_witness :
    ((PWD.generateReceipts ([PWD.wRow1] ++ PWD.wRowBad :: [PWD.wRow2])).1).length
      = ([PWD.wRow1] ++ PWD.wRowBad :: [PWD.wRow2]).length - 1 ∧
    ((PWD.generateReceipts ([PWD.wRow1] ++ PWD.wRowBad :: [PWD.wRow2])).1).map
        PWD.Receipt.rowIdx =
      List.range' 0 [PWD.wRow1].length ++ List.range' ([PWD.wRow1].length + 1)
        [PWD.wRow2].length ∧
    (PWD.generateReceipts ([PWD.wRow1] ++ PWD.wRowBad :: [PWD.wRow2])).2 =
      [([PWD.wRow1].length + 2, PWD.invalidAmountMsg "abc")] ∧
    ∃ s t, PWD.invalidAmountMsg "abc" = s ++ "abc" ++ t :=
  batch_single_invalid_row [PWD.wRow1] [PWD.wRow2] PWD.wRowBad "abc"
    (by decide) (by decide) rfl

namespace PWD

/-! ## Persistence in the calculator flows

Both calculators run `cursor.execute(INSERT ...)` and `conn.commit()`
after computing but before rendering anything (Streamlit_app2.py
lines 628-640 in the professional bill flow and 495-507 in the delay
flow). There is no try/except around the insert, so an exception
raised by the store propagates and the rendering code below it never
runs. The store is embedded as a function returning either the
generated row id or a persistence error.
-/

inductive PersistenceError where
  | insertFailed
  deriving Repr, DecidableEq

structure BillFormInput where
  billNumber : String
  contractorName : String
  workDescription : String
  currentClaim : ℚ
  previousPayment : ℚ
  gstRate : ℚ
  tdsRate : ℚ
  retentionRate : ℚ
  labourCessRate : ℚ
  otherDeductions : ℚ
  deriving Repr, DecidableEq

def billInputOfForm (f : BillFormInput) : BillInput :=
  { currentClaim := f.currentClaim, gstRate := f.gstRate, tdsRate := f.tdsRate,
    retentionRate := f.retentionRate, labourCessRate := f.labourCessRate,
    otherDeductions := f.otherDeductions }

inductive BillFlowResult where
  | validationError
  | persistenceFailure (e : PersistenceError)
  | success (c : BillCalc)
  deriving Repr, DecidableEq

/-- Lines 610-657: validate, compute the deductions, insert, and only
then render the note sheet; a store exception aborts the handler
before the rendering. -/
def professionalBillFlow (f : BillFormInput)
    (ins : BillCalc → Except PersistenceError Nat) : BillFlowResult :=
  if f.billNumber = "" ∨ f.contractorName = "" ∨ f.workDescription = "" ∨
      f.currentClaim ≤ 0 then
    .validationError
  else
    let c := computeProfessionalBill (billInputOfForm f)
    match ins c with
    | .error e => .persistenceFailure e
    | .ok _ => .success c

inductive DelayFlowResult where
  | validationError
  | persistenceFailure (e : PersistenceError)
  | success (res : DelayResult)
  deriving Repr, DecidableEq

/-- Lines 462-583 of the delay calculator: validate, compute the delay
analysis, insert, and only then render the report. -/
def advancedDelayFlow (projectName contractorName : String)
    (originalDate actualDate : ℤ) (projectValue penaltyRate : ℚ)
    (ins : DelayResult → Except PersistenceError Nat) : DelayFlowResult :=
  if projectName = "" ∨ contractorName = "" then .validationError
  else
    let res := computeDelayAnalysis originalDate actualDate projectValue penaltyRate
    match ins res with
    | .error e => .persistenceFailure e
    | .ok _ => .success res

/-- A concrete, fully valid professional-bill submission. -/
def sampleBillForm : BillFormInput :=
  { billNumber := "PWD-BILL-2024-001", contractorName := "Alice Kumar",
    workDescription := "Road repair", currentClaim := 100000, previousPayment := 0,
    gstRate := 18, tdsRate := 2, retentionRate := 5, labourCessRate := 1,
    otherDeductions := 0 }

theorem sampleBillForm_valid :
    ¬(sampleBillForm.billNumber = "" ∨ sampleBillForm.contractorName = "" ∨
      sampleBillForm.workDescription = "" ∨ sampleBillForm.currentClaim ≤ 0) := by
  push_neg
  refine ⟨by decide, by decide, by decide, by norm_num [sampleBillForm]⟩

end PWD

/-- C7 counterexample: on a fully valid bill whose store insert fails,
the flow surfaces the persistence failure and the computed result is
not returned - the rendering step after the insert is never reached. -/
theorem persistence_failure_counterexample :
    PWD.professionalBillFlow PWD.sampleBillForm
        (fun _ => Except.error PWD.PersistenceError.insertFailed) =
      PWD.BillFlowResult.persistenceFailure PWD.PersistenceError.insertFailed := by
  rw [PWD.professionalBillFlow, if_neg PWD.sampleBillForm_valid]

/-- C7 (amended): in both calculator flows the record insert sits
between the computation and the rendering with no exception handling:
when the insert succeeds the computed result is returned, but when the
insert fails the flow surfaces only the persistence error and the
computed result is not returned to the caller. -/
theorem persistence_failure_suppresses_result :
    (∀ (f : PWD.BillFormInput) (ins : PWD.BillCalc → Except PWD.PersistenceError Nat),
      ¬(f.billNumber = "" ∨ f.contractorName = "" ∨ f.workDescription = "" ∨
          f.currentClaim ≤ 0) →
      (∀ e, ins (PWD.computeProfessionalBill (PWD.billInputOfForm f)) = Except.error e →
        PWD.professionalBillFlow f ins = PWD.BillFlowResult.persistenceFailure e) ∧
      (∀ n, ins (PWD.computeProfessionalBill (PWD.billInputOfForm f)) = Except.ok n →
        PWD.professionalBillFlow f ins =
          PWD.BillFlowResult.success
            (PWD.computeProfessionalBill (PWD.billInputOfForm f)))) ∧
    (∀ (pn cn : String) (od ad : ℤ) (pv pr : ℚ)
        (ins : PWD.DelayResult → Except PWD.PersistenceError Nat),
      ¬(pn = "" ∨ cn = "") →
      (∀ e, ins (PWD.computeDelayAnalysis od ad pv pr) = Except.error e →
        PWD.advancedDelayFlow pn cn od ad pv pr ins =
          PWD.DelayFlowResult.persistenceFailure e) ∧
      (∀ n, ins (PWD.computeDelayAnalysis od ad pv pr) = Except.ok n →
        PWD.advancedDelayFlow pn cn od ad pv pr ins =
          PWD.DelayFlowResult.success (PWD.computeDelayAnalysis od ad pv pr))) := by
  constructor
  · intro f ins hv
    constructor
    · intro e he
      simp only [PWD.professionalBillFlow, if_neg hv, he]
    · intro n hn
      simp only [PWD.professionalBillFlow, if_neg hv, hn]
  · intro pn cn od ad pv pr ins hv
    constructor
    · intro e he
      simp only [PWD.advancedDelayFlow, if_neg hv, he]
    · intro n hn
      simp only [PWD.advancedDelayFlow, if_neg hv, hn]

/-- Witness for C7 (amended): a succeeding insert returns the computed
bill, and a failing insert in the delay flow surfaces the persistence
error. -/
theorem persistence_failure_suppresses_result_witness :
    PWD.professionalBillFlow PWD.sampleBillForm (fun _ => Except.ok 1) =
      PWD.BillFlowResult.success
        (PWD.computeProfessionalBill (PWD.billInputOfForm PWD.sampleBillForm)) ∧
    PWD.advancedDelayFlow "Highway upgrade" "Alice Kumar" 0 100 1000000 (5 / 100)
        (fun _ => Except.error PWD.PersistenceError.insertFailed) =
      PWD.DelayFlowResult.persistenceFailure PWD.PersistenceError.insertFailed := by
  constructor
  · exact (persistence_failure_suppresses_result.1 PWD.sampleBillForm
      (fun _ => Except.ok 1) PWD.sampleBillForm_valid).2 1 rfl
  · exact (persistence_failure_suppresses_result.2 "Highway upgrade" "Alice Kumar"
      0 100 1000000 (5 / 100) (fun _ => Except.error PWD.PersistenceError.insertFailed)
      (by push_neg; exact ⟨by decide, by decide⟩)).1
      PWD.PersistenceError.insertFailed rfl
